import Mathlib

/-! Verification of the RAG pipeline core: chunking (ingestion.py), corpus
indexing (embed_index.py), retrieval (api.py) and grounding validation
(validate_agent.py). Text is modelled as `List Char` or `String`, embedding
vectors as lists of rationals, float arithmetic as real arithmetic. The
sentence-transformers embedding model and the FAISS index are external
capabilities: the embedder is an abstract function parameter and a FAISS
search is represented by the list of neighbour indices it returns. -/

/-- Paragraph separator of ingestion.py: the two newline characters that
split_into_chunk splits on and re-inserts between joined paragraphs. -/
def sep : List Char := ['\n', '\n']

/-- Python text.split on the two-character blank-line separator: leftmost,
non-overlapping occurrences cut the character list. Mirrors
raw_paragraphs = text.split of split_into_chunk (ingestion.py); like the
Python method it returns one (possibly empty) piece more than the number
of separator occurrences, so the empty text gives one empty paragraph. -/
def splitParas : List Char → List (List Char)
  | [] => [[]]
  | '\n' :: '\n' :: rest => [] :: splitParas rest
  | c :: rest =>
    match splitParas rest with
    | [] => [[c]]
    | p :: ps => (c :: p) :: ps

/-- Loop body of the hard split of ingestion.py: for i in
range(0, len(para), max_chars) take para[i : i + max_chars]. The fuel
argument is an upper bound on the paragraph length that makes the
recursion structural (each step drops at least one character). -/
def hard_slices_go (mc : Nat) : Nat → List Char → List (List Char)
  | 0, _ => []
  | _ + 1, [] => []
  | fuel + 1, c :: cs =>
    if mc = 0 then []
    else (c :: cs).take mc :: hard_slices_go mc fuel ((c :: cs).drop mc)

/-- Consecutive fixed-size slices para[0:mc], para[mc:2*mc], ... of a
paragraph (the inner for-loop of split_into_chunk). With max_chars = 0 the
Python range(0, len(para), 0) raises ValueError on a non-empty paragraph;
the model returns [] there and every theorem assumes 0 < max_chars. -/
def hard_slices (mc : Nat) (para : List Char) : List (List Char) :=
  hard_slices_go mc para.length para

/-- Paragraph loop of split_into_chunk (ingestion.py). The first list
argument is the current_chunk accumulator, the second the remaining
paragraphs; the result is the list of chunks still to be appended. The
three branches are, in order: the hard split of an oversized paragraph
(flushing the accumulator first, as the loop body does on its first
iteration), the flush when appending the paragraph plus the two-character
separator would exceed max_chars, and the append into the accumulator. -/
def split_loop (mc : Nat) : List Char → List (List Char) → List (List Char)
  | cc, [] => if cc = [] then [] else [cc]
  | cc, para :: rest =>
    if mc < para.length then
      (if cc = [] then [] else [cc]) ++ hard_slices mc para ++ split_loop mc [] rest
    else if mc < cc.length + para.length + 2 then
      (if cc = [] then [] else [cc]) ++ split_loop mc para rest
    else if cc = [] then
      split_loop mc para rest
    else
      split_loop mc (cc ++ sep ++ para) rest

/-- split_into_chunk from ingestion.py: split the text on blank-line
separators and pack the paragraphs into chunks of at most max_chars,
hard-slicing any paragraph that alone exceeds max_chars. The Python
default for max_chars is 100. -/
def split_into_chunk (text : List Char) (mc : Nat) : List (List Char) :=
  split_loop mc [] (splitParas text)

/-- MAX_CHARS from validate_agent.py: maximum answer size in characters. -/
def MAX_CHARS : Nat := 5000

/-- SIMILARITY_THRESHOLD from validate_agent.py (the float literal 0.1,
modelled as the real number 1/10). -/
noncomputable def SIMILARITY_THRESHOLD : ℝ := 1 / 10

/-- cosine_similarity from validate_agent.py. Vectors are lists of
rationals (exact stand-ins for numpy float arrays); the result is real
because np.linalg.norm takes a square root. The guard mirrors
np.all(a == 0) or np.all(b == 0), which runs before the division, so the
division by the product of norms is unreachable for an all-zero argument.
Like np.all on an empty array, List.all of [] is true. np.dot of two
equal-length vectors is the sum of componentwise products (the embedding
capability always produces vectors of one fixed dimension). -/
noncomputable def cosine_similarity (a b : List ℚ) : ℝ :=
  if (a.all fun x => x = 0) ∨ (b.all fun x => x = 0) then 0
  else ((((a.zip b).map fun p => p.1 * p.2).sum : ℚ) : ℝ) /
    (Real.sqrt (((a.map fun x => x * x).sum : ℚ)) *
      Real.sqrt (((b.map fun x => x * x).sum : ℚ)))

/-- Distinct reason messages that validate_llm_output writes into the info
dictionary, with the data each message interpolates: the length-exceeded
message carries len(llm_output), the low-similarity message carries the
computed mean, and the success message is constant. -/
inductive Reason where
  | length_exceeded (size : Nat)
  | low_similarity (avg : ℝ)
  | success

/-- The info dictionary built by validate_llm_output: each key is absent
until the function assigns it, hence the Option fields. -/
structure ValidationInfo where
  reason : Option Reason
  average_similarity_with_chunks : Option ℝ
  individual_similarities : Option (List ℝ)

/-- The sims list of validate_llm_output: cosine similarity of the answer
embedding against each retrieved chunk embedding. The batched
embed_model.encode call is modelled by mapping a deterministic per-string
embedder over the texts (spec section 6: one fixed-dimension vector per
input string, batchable), so encode([llm_output])[0] is embed llm_output. -/
noncomputable def sims_of (embed : String → List ℚ) (llm_output : String)
    (retrieved_texts : List String) : List ℝ :=
  retrieved_texts.map fun t => cosine_similarity (embed llm_output) (embed t)

/-- The avg_sim value of validate_llm_output:
float(np.mean(sims)) if sims else 0.0. -/
noncomputable def avg_of (sims : List ℝ) : ℝ :=
  if sims.isEmpty then 0 else sims.sum / sims.length

/-- validate_llm_output from validate_agent.py: the length gate rejects an
answer longer than MAX_CHARS before any similarity is computed (the info
dictionary then holds only the reason); otherwise the grounding gate
computes the per-chunk similarities and their mean, stores both in info,
and rejects when the mean is below SIMILARITY_THRESHOLD. -/
noncomputable def validate_llm_output (embed : String → List ℚ)
    (llm_output question : String) (retrieved_texts : List String) :
    Bool × ValidationInfo :=
  if MAX_CHARS < llm_output.length then
    (false, ⟨some (Reason.length_exceeded llm_output.length), none, none⟩)
  else if avg_of (sims_of embed llm_output retrieved_texts) < SIMILARITY_THRESHOLD then
    (false,
      ⟨some (Reason.low_similarity (avg_of (sims_of embed llm_output retrieved_texts))),
        some (avg_of (sims_of embed llm_output retrieved_texts)),
        some (sims_of embed llm_output retrieved_texts)⟩)
  else
    (true,
      ⟨some Reason.success,
        some (avg_of (sims_of embed llm_output retrieved_texts)),
        some (sims_of embed llm_output retrieved_texts)⟩)

/-- A 6000-character answer against MAX_CHARS = 5000: the long-answer
scenario input of the spec. -/
def long_answer : String := String.mk (List.replicate 6000 'a')

/-- The all_chunks list of building_embedding_index (embed_index.py): the
outer loop walks the documents mapping in its fixed iteration order (a
Python dict iterates in insertion order, hence the association list) and
appends every chunk of every document. -/
def corpus_chunks (mc : Nat) : List (String × List Char) → List (List Char)
  | [] => []
  | d :: rest => split_into_chunk d.2 mc ++ corpus_chunks mc rest

/-- The metadata list of building_embedding_index: for idx, chunk in
enumerate(chunks) the pair (doc_name, idx) is appended, in the same order
as the corresponding chunk. -/
def corpus_metadata (mc : Nat) : List (String × List Char) → List (String × Nat)
  | [] => []
  | d :: rest =>
    (List.range (split_into_chunk d.2 mc).length).map (fun i => (d.1, i)) ++
      corpus_metadata mc rest

/-- Error message for the failure of building_embedding_index on an empty
chunk list: model.encode([]) returns an array of shape (0,), so
embeddings.shape[1] raises IndexError and the build stops. -/
def empty_corpus_error : String := "IndexError: tuple index out of range"

/-- building_embedding_index from embed_index.py, for an already loaded
documents mapping. The sentence-transformers model is the abstract
per-chunk embedder (batch encode preserves order and count); the FAISS
IndexFlatL2 stores the embeddings in insertion order, so the index is
modelled as the list of vectors added to it. With zero chunks the
dimension extraction embeddings.shape[1] raises IndexError (an empty
encode result has shape (0,)), modelled as the error case. -/
def building_embedding_index (embed : List Char → List ℚ) (mc : Nat)
    (documents : List (String × List Char)) :
    Except String (List (List Char) × List (String × Nat) × List (List ℚ)) :=
  let all_chunks := corpus_chunks mc documents
  let metadata := corpus_metadata mc documents
  let embeddings := all_chunks.map embed
  if embeddings.isEmpty then
    Except.error empty_corpus_error
  else
    Except.ok (all_chunks, metadata, embeddings)

/-- retrieve_top_k_chunks from api.py, given the chunk and metadata lists
loaded from disk and the row of neighbour indices returned by
index.search for the query (FAISS returns exactly k indices per query,
using a sentinel such as -1 when the index holds fewer than k vectors).
For each index the bound check 0 <= idx < len(chunks_texts) guards the
chunk lookup; a skipped index contributes nothing. chunks_meta[idx] is
looked up without its own bound check, so a metadata list shorter than
the chunk list would raise IndexError, modelled as the none case. -/
def retrieve_top_k_chunks (chunks_texts : List String)
    (chunks_meta : List (String × Nat)) :
    List Int → Option (List String × List (String × Nat))
  | [] => some ([], [])
  | idx :: rest =>
    if 0 ≤ idx ∧ idx < (chunks_texts.length : Int) then
      match chunks_texts[idx.toNat]?, chunks_meta[idx.toNat]? with
      | some t, some m =>
        match retrieve_top_k_chunks chunks_texts chunks_meta rest with
        | some (ts, ms) => some (t :: ts, m :: ms)
        | none => none
      | _, _ => none
    else
      retrieve_top_k_chunks chunks_texts chunks_meta rest

lemma corpus_lengths (mc : Nat) :
    ∀ documents : List (String × List Char),
      (corpus_chunks mc documents).length = (corpus_metadata mc documents).length := by
  intro docs
  induction docs with
  | nil => rfl
  | cons d rest ih =>
    simp [corpus_chunks, corpus_metadata, ih]

lemma corpus_align (mc : Nat) :
    ∀ (documents : List (String × List Char)) (i : Nat)
      (hc : i < (corpus_chunks mc documents).length)
      (hm : i < (corpus_metadata mc documents).length),
      ∃ content,
        (((corpus_metadata mc documents).get ⟨i, hm⟩).1, content) ∈ documents ∧
        ∃ hs : ((corpus_metadata mc documents).get ⟨i, hm⟩).2 <
            (split_into_chunk content mc).length,
          (corpus_chunks mc documents).get ⟨i, hc⟩ =
            (split_into_chunk content mc).get
              ⟨((corpus_metadata mc documents).get ⟨i, hm⟩).2, hs⟩ := by
  intro docs
  induction docs with
  | nil =>
    intro i hc hm
    simp [corpus_chunks] at hc
  | cons d rest ih =>
    intro i hc hm
    have hcs : corpus_chunks mc (d :: rest) =
        split_into_chunk d.2 mc ++ corpus_chunks mc rest := rfl
    have hms : corpus_metadata mc (d :: rest) =
        (List.range (split_into_chunk d.2 mc).length).map (fun j => (d.1, j)) ++
          corpus_metadata mc rest := rfl
    simp only [List.get_eq_getElem] at ih ⊢
    by_cases hlt : i < (split_into_chunk d.2 mc).length
    · have hmeta : (corpus_metadata mc (d :: rest))[i] = (d.1, i) := by
        rw [List.getElem_of_eq hms hm, List.getElem_append_left (by simpa using hlt),
          List.getElem_map, List.getElem_range]
      have hchunk : (corpus_chunks mc (d :: rest))[i] =
          (split_into_chunk d.2 mc)[i] := by
        rw [List.getElem_of_eq hcs hc, List.getElem_append_left hlt]
      refine ⟨d.2, ?_, ?_⟩
      · rw [hmeta]
        exact List.mem_cons_self d rest
      · simp only [hmeta, hchunk]
        exact ⟨hlt, trivial⟩
    · have hn : (split_into_chunk d.2 mc).length ≤ i := by omega
      have hcr : i - (split_into_chunk d.2 mc).length <
          (corpus_chunks mc rest).length := by
        rw [hcs, List.length_append] at hc; omega
      have hmr : i - (split_into_chunk d.2 mc).length <
          (corpus_metadata mc rest).length := by
        rw [← corpus_lengths]; exact hcr
      have hmeta : (corpus_metadata mc (d :: rest))[i] =
          (corpus_metadata mc rest)[i - (split_into_chunk d.2 mc).length] := by
        rw [List.getElem_of_eq hms hm, List.getElem_append_right (by simpa using hn)]
        simp
      have hchunk : (corpus_chunks mc (d :: rest))[i] =
          (corpus_chunks mc rest)[i - (split_into_chunk d.2 mc).length] := by
        rw [List.getElem_of_eq hcs hc, List.getElem_append_right hn]
      obtain ⟨content, hmem, hs, heq⟩ :=
        ih (i - (split_into_chunk d.2 mc).length) hcr hmr
      refine ⟨content, ?_, ?_⟩
      · rw [hmeta]
        exact List.mem_cons_of_mem d hmem
      · simp only [hmeta, hchunk]
        exact ⟨hs, heq⟩

/-- Whenever building_embedding_index returns a built index, the chunk
list, the metadata list, and the list of vectors added to the FAISS index
have equal length; the vector at position i is the embedding of the chunk
at position i; and the metadata pair at position i names a document of the
corpus together with the sequence index of exactly the chunk stored at
position i, so all three lists refer to the same chunk at each position
(any non-empty corpus that chunks to at least one chunk builds such an
index, as the witness shows). -/
theorem corpus_index_aligned (embed : List Char → List ℚ) (mc : Nat)
    (documents : List (String × List Char))
    (chunks : List (List Char)) (meta : List (String × Nat)) (vecs : List (List ℚ))
    (h : building_embedding_index embed mc documents =
      Except.ok (chunks, meta, vecs)) :
    chunks.length = meta.length ∧ meta.length = vecs.length ∧
    vecs = chunks.map embed ∧
    (∀ (i : Nat) (hc : i < chunks.length) (hm : i < meta.length),
      ∃ content,
        ((meta.get ⟨i, hm⟩).1, content) ∈ documents ∧
        ∃ hs : (meta.get ⟨i, hm⟩).2 < (split_into_chunk content mc).length,
          chunks.get ⟨i, hc⟩ =
            (split_into_chunk content mc).get ⟨(meta.get ⟨i, hm⟩).2, hs⟩) := by
  simp only [building_embedding_index] at h
  split at h
  · exact absurd h (by simp)
  · rw [Except.ok.injEq, Prod.mk.injEq, Prod.mk.injEq] at h
    obtain ⟨h1, h2, h3⟩ := h
    subst h1; subst h2; subst h3
    refine ⟨corpus_lengths mc documents, ?_, rfl, corpus_align mc documents⟩
    rw [List.length_map, corpus_lengths]

/-- Witness for corpus_index_aligned: a one-document corpus builds, and
its chunk and metadata lists have equal length. -/
theorem corpus_index_aligned_witness :
    (corpus_chunks 100 [("a.txt", "hi".data)]).length =
      (corpus_metadata 100 [("a.txt", "hi".data)]).length :=
  (corpus_index_aligned (fun _ => [1]) 100 [("a.txt", "hi".data)]
    (corpus_chunks 100 [("a.txt", "hi".data)])
    (corpus_metadata 100 [("a.txt", "hi".data)])
    ((corpus_chunks 100 [("a.txt", "hi".data)]).map (fun _ => [1])) rfl).1

/-- building_embedding_index fails rather than silently building an empty
index: with an empty documents mapping, and more generally whenever
chunking yields zero chunks, the embedding batch is empty and the build
stops with the IndexError raised by the dimension extraction
embeddings.shape[1]. -/
theorem empty_corpus_fails (embed : List Char → List ℚ) (mc : Nat)
    (documents : List (String × List Char)) :
    (documents = [] →
      building_embedding_index embed mc documents =
        Except.error empty_corpus_error) ∧
    (corpus_chunks mc documents = [] →
      building_embedding_index embed mc documents =
        Except.error empty_corpus_error) := by
  constructor
  · intro h; subst h; rfl
  · intro h
    unfold building_embedding_index
    rw [h]
    rfl

/-- Witness for empty_corpus_fails: the empty corpus is rejected. -/
theorem empty_corpus_fails_witness :
    building_embedding_index (fun _ => [1]) 100 [] =
      Except.error empty_corpus_error :=
  (empty_corpus_fails (fun _ => [1]) 100 []).1 rfl

lemma retrieve_eq_filter (texts : List String) (meta : List (String × Nat))
    (hlen : meta.length = texts.length) :
    ∀ indices : List Int,
      retrieve_top_k_chunks texts meta indices =
        some ((indices.filter fun i => decide (0 ≤ i ∧ i < (texts.length : Int))).map
            (fun i => texts.getD i.toNat ""),
          (indices.filter fun i => decide (0 ≤ i ∧ i < (texts.length : Int))).map
            (fun i => meta.getD i.toNat ("", 0))) := by
  intro indices
  induction indices with
  | nil => rfl
  | cons idx rest ih =>
    rw [retrieve_top_k_chunks]
    by_cases hg : 0 ≤ idx ∧ idx < (texts.length : Int)
    · rw [if_pos hg]
      have hnat : idx.toNat < texts.length := by omega
      have hnm : idx.toNat < meta.length := by omega
      have ht : texts[idx.toNat]? = some (texts.getD idx.toNat "") := by
        rw [List.getElem?_eq_getElem hnat, List.getD_eq_getElem texts "" hnat]
      have hm : meta[idx.toNat]? = some (meta.getD idx.toNat ("", 0)) := by
        rw [List.getElem?_eq_getElem hnm, List.getD_eq_getElem meta ("", 0) hnm]
      rw [ht, hm, ih, List.filter_cons, if_pos (by simpa using hg)]
      rfl
    · rw [if_neg hg, ih, List.filter_cons, if_neg (by simpa using hg)]

/-- retrieve_top_k_chunks keeps exactly the returned neighbour indices
that pass the bound check, in order: the result is the chunk text and
metadata at each surviving position, its length is at most k whenever the
search returned k indices (out-of-range sentinels are silently skipped),
every surviving index is within the bounds of the chunk list, and in the
concrete scenario of an index holding 3 vectors queried with k = 5 (three
hits plus two -1 sentinels) exactly 3 results come back. -/
theorem retrieve_bounds (texts : List String) (meta : List (String × Nat))
    (indices : List Int) (k : Nat) (hlen : meta.length = texts.length)
    (hk : indices.length = k) :
    retrieve_top_k_chunks texts meta indices =
      some ((indices.filter fun i => decide (0 ≤ i ∧ i < (texts.length : Int))).map
          (fun i => texts.getD i.toNat ""),
        (indices.filter fun i => decide (0 ≤ i ∧ i < (texts.length : Int))).map
          (fun i => meta.getD i.toNat ("", 0))) ∧
    ((indices.filter fun i => decide (0 ≤ i ∧ i < (texts.length : Int))).map
        (fun i => texts.getD i.toNat "")).length ≤ k ∧
    (∀ i ∈ indices.filter fun i => decide (0 ≤ i ∧ i < (texts.length : Int)),
      0 ≤ i ∧ i.toNat < texts.length) ∧
    retrieve_top_k_chunks ["c0", "c1", "c2"]
        [("a.txt", 0), ("a.txt", 1), ("a.txt", 2)] [1, 0, 2, -1, -1] =
      some (["c1", "c0", "c2"], [("a.txt", 1), ("a.txt", 0), ("a.txt", 2)]) := by
  refine ⟨retrieve_eq_filter texts meta hlen indices, ?_, ?_, by decide⟩
  · rw [List.length_map]
    calc (indices.filter fun i => decide (0 ≤ i ∧ i < (texts.length : Int))).length ≤
        indices.length := List.length_filter_le _ _
      _ = k := hk
  · intro i hi
    have hp := List.of_mem_filter hi
    have hg : 0 ≤ i ∧ i < (texts.length : Int) := by simpa using hp
    exact ⟨hg.1, by omega⟩

/-- Witness for retrieve_bounds: the concrete 3-vector, k = 5 scenario
returns exactly the three stored chunks with their metadata. -/
theorem retrieve_bounds_witness :
    retrieve_top_k_chunks ["c0", "c1", "c2"]
        [("a.txt", 0), ("a.txt", 1), ("a.txt", 2)] [1, 0, 2, -1, -1] =
      some (["c1", "c0", "c2"], [("a.txt", 1), ("a.txt", 0), ("a.txt", 2)]) :=
  (retrieve_bounds ["c0", "c1", "c2"] [("a.txt", 0), ("a.txt", 1), ("a.txt", 2)]
    [1, 0, 2, -1, -1] 5 rfl rfl).2.2.2

lemma hard_slices_go_nil (mc fuel : Nat) : hard_slices_go mc fuel [] = [] := by
  cases fuel <;> rfl

lemma hard_slices_go_mem (mc : Nat) (hmc : 0 < mc) :
    ∀ (fuel : Nat) (para : List Char), ∀ s ∈ hard_slices_go mc fuel para,
      s.length ≤ mc ∧ s ≠ [] := by
  intro fuel
  induction fuel with
  | zero => intro para s hs; simp [hard_slices_go] at hs
  | succ n ih =>
    intro para s hs
    cases para with
    | nil => simp [hard_slices_go] at hs
    | cons c cs =>
      rw [hard_slices_go, if_neg (by omega)] at hs
      rcases List.mem_cons.mp hs with h | h
      · subst h
        refine ⟨by simp [List.length_take], ?_⟩
        cases mc with
        | zero => omega
        | succ k => simp [List.take_succ_cons]
      · exact ih (List.drop mc (c :: cs)) s h

lemma hard_slices_go_flatten (mc : Nat) (hmc : 0 < mc) :
    ∀ (fuel : Nat) (para : List Char), para.length ≤ fuel →
      (hard_slices_go mc fuel para).flatten = para := by
  intro fuel
  induction fuel with
  | zero =>
    intro para hlen
    have : para = [] := List.length_eq_zero.mp (by omega)
    subst this; rfl
  | succ n ih =>
    intro para hlen
    cases para with
    | nil => simp [hard_slices_go]
    | cons c cs =>
      simp only [List.length_cons] at hlen
      rw [hard_slices_go, if_neg (by omega), List.flatten_cons]
      rw [ih (List.drop mc (c :: cs))
        (by simp only [List.length_drop, List.length_cons]; omega)]
      exact List.take_append_drop mc (c :: cs)

lemma hard_slices_go_dropLast (mc : Nat) (hmc : 0 < mc) :
    ∀ (fuel : Nat) (para : List Char),
      ∀ s ∈ (hard_slices_go mc fuel para).dropLast, s.length = mc := by
  intro fuel
  induction fuel with
  | zero => intro para s hs; simp [hard_slices_go] at hs
  | succ n ih =>
    intro para s hs
    cases para with
    | nil => simp [hard_slices_go] at hs
    | cons c cs =>
      rw [hard_slices_go, if_neg (by omega)] at hs
      rcases hrec : hard_slices_go mc n ((c :: cs).drop mc) with _ | ⟨x, xs⟩
      · rw [hrec] at hs; simp at hs
      · rw [hrec, List.dropLast_cons₂] at hs
        rcases List.mem_cons.mp hs with h | h
        · subst h
          have hdrop : (c :: cs).drop mc ≠ [] := by
            intro hd
            rw [hd, hard_slices_go_nil] at hrec
            exact (List.cons_ne_nil x xs) hrec.symm
          have hlt : mc < (c :: cs).length := by
            by_contra hge
            exact hdrop (List.drop_eq_nil_of_le (by omega))
          simp only [List.length_cons] at hlt
          simp [List.length_take]
          omega
        · exact ih ((c :: cs).drop mc) s (by rw [hrec]; exact h)

lemma mem_flush {cc c : List Char} (h : c ∈ if cc = [] then ([] : List (List Char)) else [cc]) :
    c = cc ∧ cc ≠ [] := by
  by_cases hcc : cc = []
  · rw [if_pos hcc] at h; simp at h
  · rw [if_neg hcc] at h
    exact ⟨List.mem_singleton.mp h, hcc⟩

lemma split_loop_mem (mc : Nat) (hmc : 0 < mc) :
    ∀ (paras : List (List Char)) (cc : List Char), cc.length ≤ mc →
      ∀ c ∈ split_loop mc cc paras, c.length ≤ mc ∧ c ≠ [] := by
  intro paras
  induction paras with
  | nil =>
    intro cc hcc c hc
    rw [split_loop] at hc
    have := mem_flush hc
    exact ⟨this.1 ▸ hcc, this.1 ▸ this.2⟩
  | cons para rest ih =>
    intro cc hcc c hc
    rw [split_loop] at hc
    by_cases h1 : mc < para.length
    · rw [if_pos h1] at hc
      rcases List.mem_append.mp hc with h | h
      · rcases List.mem_append.mp h with h | h
        · have := mem_flush h
          exact ⟨this.1 ▸ hcc, this.1 ▸ this.2⟩
        · exact hard_slices_go_mem mc hmc para.length para c h
      · exact ih [] (by simp) c h
    · rw [if_neg h1] at hc
      by_cases h2 : mc < cc.length + para.length + 2
      · rw [if_pos h2] at hc
        rcases List.mem_append.mp hc with h | h
        · have := mem_flush h
          exact ⟨this.1 ▸ hcc, this.1 ▸ this.2⟩
        · exact ih para (by omega) c h
      · rw [if_neg h2] at hc
        by_cases h3 : cc = []
        · rw [if_pos h3] at hc
          exact ih para (by omega) c hc
        · rw [if_neg h3] at hc
          refine ih (cc ++ sep ++ para) ?_ c hc
          have : sep.length = 2 := rfl
          simp [List.length_append, this]
          omega

set_option maxRecDepth 10000 in
/-- Every chunk produced by split_into_chunk has length at most max_chars
(in particular every chunk that is not a hard-split slice does), and a text
that is a single paragraph longer than max_chars is emitted exactly as its
consecutive hard slices: they concatenate back to the paragraph, each has
length at most max_chars, and each except possibly the last has length
exactly max_chars; concretely, a 250-character paragraph with
max_chars = 100 yields pieces of lengths 100, 100, 50, in that order. -/
theorem chunk_length_bound (mc : Nat) (text : List Char) (hmc : 0 < mc) :
    (∀ c ∈ split_into_chunk text mc, c.length ≤ mc) ∧
    (∀ para : List Char, splitParas text = [para] → mc < para.length →
      split_into_chunk text mc = hard_slices mc para ∧
      (hard_slices mc para).flatten = para ∧
      (∀ s ∈ hard_slices mc para, s.length ≤ mc) ∧
      (∀ s ∈ (hard_slices mc para).dropLast, s.length = mc)) ∧
    (split_into_chunk (List.replicate 250 'a') 100).map List.length =
      [100, 100, 50] := by
  refine ⟨?_, ?_, by decide⟩
  · intro c hc
    exact (split_loop_mem mc hmc (splitParas text) [] (by simp) c hc).1
  · intro para hp hlong
    refine ⟨?_, hard_slices_go_flatten mc hmc para.length para le_rfl,
      fun s hs => (hard_slices_go_mem mc hmc para.length para s hs).1,
      hard_slices_go_dropLast mc hmc para.length para⟩
    rw [split_into_chunk, hp, split_loop, if_pos hlong]
    simp [split_loop, hard_slices]

/-- Witness for chunk_length_bound: the 250-character scenario. -/
theorem chunk_length_bound_witness :
    (split_into_chunk (List.replicate 250 'a') 100).map List.length =
      [100, 100, 50] :=
  (chunk_length_bound 100 (List.replicate 250 'a') (by norm_num)).2.2

/-- No chunk produced by split_into_chunk is the empty string: every
emission of the accumulator is guarded by the if current_chunk truthiness
check, and every hard slice is a non-empty piece of a non-empty paragraph. -/
theorem chunk_never_empty (mc : Nat) (text : List Char) (hmc : 0 < mc) :
    ∀ c ∈ split_into_chunk text mc, c ≠ [] :=
  fun c hc => (split_loop_mem mc hmc (splitParas text) [] (by simp) c hc).2

/-- Witness for chunk_never_empty on a concrete two-paragraph text. -/
theorem chunk_never_empty_witness :
    [] ∉ split_into_chunk ("ab\n\ncd".data) 4 :=
  fun h => chunk_never_empty 4 ("ab\n\ncd".data) (by norm_num) [] h rfl

/-- Counterexample to the claim that two paragraphs totaling less than
max_chars are joined into one chunk: a 50-character paragraph and a
49-character paragraph total 99 < 100, yet split_into_chunk with
max_chars = 100 keeps them as two separate chunks, because the
accumulator test charges the two-character separator as well
(len(current_chunk) + len(para) + 2 > max_chars holds at 50 + 49 + 2). -/
theorem two_short_paragraphs_counterexample :
    splitParas (List.replicate 50 'a' ++ sep ++ List.replicate 49 'b') =
      [List.replicate 50 'a', List.replicate 49 'b'] ∧
    (List.replicate 50 'a').length + (List.replicate 49 'b').length < 100 ∧
    split_into_chunk (List.replicate 50 'a' ++ sep ++ List.replicate 49 'b') 100 =
      [List.replicate 50 'a', List.replicate 49 'b'] ∧
    split_into_chunk (List.replicate 50 'a' ++ sep ++ List.replicate 49 'b') 100 ≠
      [List.replicate 50 'a' ++ sep ++ List.replicate 49 'b'] :=
  ⟨by decide, by decide, by decide, by decide⟩

/-- Amended two-paragraph scenario: a document whose text splits into
exactly two paragraphs, the first non-empty, whose lengths plus the
two-character separator total at most max_chars, is chunked into exactly
one chunk equal to the two paragraphs joined by the separator. -/
theorem two_paragraph_chunk_join (mc : Nat) (text p1 p2 : List Char)
    (hsplit : splitParas text = [p1, p2]) (hp1 : p1 ≠ [])
    (hlen : p1.length + p2.length + 2 ≤ mc) :
    split_into_chunk text mc = [p1 ++ sep ++ p2] := by
  rw [split_into_chunk, hsplit, split_loop]
  rw [if_neg (by omega), if_neg (by simp only [List.length_nil]; omega), if_pos rfl]
  rw [split_loop]
  rw [if_neg (by omega), if_neg (by omega), if_neg hp1]
  rw [split_loop, if_neg (by simp [hp1])]

/-- Witness for two_paragraph_chunk_join: two 2-character paragraphs with
max_chars = 100 are joined into a single chunk by the separator. -/
theorem two_paragraph_chunk_join_witness :
    split_into_chunk ("aa\n\nbb".data) 100 = [['a', 'a'] ++ sep ++ ['b', 'b']] :=
  two_paragraph_chunk_join 100 ("aa\n\nbb".data) ['a', 'a'] ['b', 'b']
    (by decide) (by decide) (by decide)

/-- With either argument all zero, cosine_similarity takes its guarded
branch: the if-condition of the model holds, so the result is the guard
value 0 and the division by the norms is never evaluated. -/
theorem cosine_similarity_zero (a b : List ℚ)
    (h : (a.all fun x => x = 0) = true ∨ (b.all fun x => x = 0) = true) :
    cosine_similarity a b = 0 := by
  unfold cosine_similarity
  rw [if_pos]
  exact h

/-- Witness for cosine_similarity_zero at a concrete pair of vectors. -/
theorem cosine_similarity_zero_witness :
    cosine_similarity [0, 0] [1, 2] = 0 :=
  cosine_similarity_zero [0, 0] [1, 2] (Or.inl (by decide))

/-- The validation verdict does not depend on the question argument:
validate_llm_output never reads it, so the two results are definitionally
the same pair of verdict and explanation. -/
theorem validate_question_independent (embed : String → List ℚ)
    (llm_output q1 q2 : String) (retrieved_texts : List String) :
    validate_llm_output embed llm_output q1 retrieved_texts =
    validate_llm_output embed llm_output q2 retrieved_texts := rfl

/-- An answer longer than MAX_CHARS is rejected by the length gate: the
verdict is false, the reason is the length-exceeded message carrying the
answer length, and the info dictionary holds neither a mean nor a
per-chunk similarity list because the function returns before sims is
computed. -/
theorem validate_length_gate (embed : String → List ℚ)
    (llm_output question : String) (retrieved_texts : List String)
    (h : MAX_CHARS < llm_output.length) :
    validate_llm_output embed llm_output question retrieved_texts =
    (false, ⟨some (Reason.length_exceeded llm_output.length), none, none⟩) := by
  unfold validate_llm_output
  rw [if_pos h]

/-- validate_llm_output accepts exactly when the answer is at most
MAX_CHARS characters long and the mean of the per-chunk cosine
similarities (zero for an empty chunk list) reaches SIMILARITY_THRESHOLD;
a grounding rejection stores the low-similarity reason carrying the
computed mean together with the mean and the full per-chunk similarity
list, and an acceptance stores the success reason (alongside the same
observability data). -/
theorem validate_accept_iff (embed : String → List ℚ)
    (llm_output question : String) (retrieved_texts : List String) :
    ((validate_llm_output embed llm_output question retrieved_texts).1 = true ↔
      (llm_output.length ≤ MAX_CHARS ∧
        SIMILARITY_THRESHOLD ≤ avg_of (sims_of embed llm_output retrieved_texts))) ∧
    (llm_output.length ≤ MAX_CHARS →
      avg_of (sims_of embed llm_output retrieved_texts) < SIMILARITY_THRESHOLD →
      validate_llm_output embed llm_output question retrieved_texts =
        (false,
          ⟨some (Reason.low_similarity (avg_of (sims_of embed llm_output retrieved_texts))),
            some (avg_of (sims_of embed llm_output retrieved_texts)),
            some (sims_of embed llm_output retrieved_texts)⟩)) ∧
    ((validate_llm_output embed llm_output question retrieved_texts).1 = true →
      (validate_llm_output embed llm_output question retrieved_texts).2 =
        ⟨some Reason.success,
          some (avg_of (sims_of embed llm_output retrieved_texts)),
          some (sims_of embed llm_output retrieved_texts)⟩) := by
  unfold validate_llm_output
  by_cases hlen : MAX_CHARS < llm_output.length
  · rw [if_pos hlen]
    refine ⟨⟨fun hfalse => by simp at hfalse, fun hc => absurd hc.1 (by omega)⟩,
      fun h1 _ => absurd h1 (by omega), fun hfalse => by simp at hfalse⟩
  · rw [if_neg hlen]
    by_cases havg :
        avg_of (sims_of embed llm_output retrieved_texts) < SIMILARITY_THRESHOLD
    · rw [if_pos havg]
      refine ⟨⟨fun hfalse => by simp at hfalse,
        fun hc => absurd havg (not_lt.mpr hc.2)⟩,
        fun _ _ => rfl, fun hfalse => by simp at hfalse⟩
    · rw [if_neg havg]
      exact ⟨⟨fun _ => ⟨by omega, not_lt.mp havg⟩, fun _ => rfl⟩,
        fun _ h => absurd h havg, fun _ => rfl⟩

/-- Witness for validate_accept_iff: with no retrieved chunks the mean is
the empty-list default 0, which is below the threshold 1/10, so the
concrete call is rejected with the low-similarity explanation carrying
the mean 0 and the empty similarity list. -/
theorem validate_accept_iff_witness :
    validate_llm_output (fun _ => [1]) "hi" "q" [] =
    (false,
      ⟨some (Reason.low_similarity (avg_of (sims_of (fun _ => [1]) "hi" []))),
        some (avg_of (sims_of (fun _ => [1]) "hi" [])),
        some (sims_of (fun _ => [1]) "hi" [])⟩) :=
  (validate_accept_iff (fun _ => [1]) "hi" "q" []).2.1 (by decide)
    (by
      have hs : sims_of (fun _ => ([1] : List ℚ)) "hi" [] = [] := rfl
      rw [hs, avg_of, SIMILARITY_THRESHOLD]
      norm_num)

/-- Witness for validate_length_gate: the 6000-character answer of the
spec scenario is rejected with the length-exceeded reason and an
explanation containing no similarity data. -/
theorem validate_length_gate_witness :
    validate_llm_output (fun _ => [1]) long_answer "q" ["chunk"] =
    (false, ⟨some (Reason.length_exceeded long_answer.length), none, none⟩) :=
  validate_length_gate (fun _ => [1]) long_answer "q" ["chunk"]
    (by
      have h6 : long_answer.length = 6000 := by
        rw [show long_answer.length = (List.replicate 6000 'a').length from rfl,
          List.length_replicate]
      rw [h6, MAX_CHARS]
      norm_num)
